import Mathlib

/-!
Shallow embedding of `src/lib/ddlog_rt.rs` (DDlog runtime): the type-erased
value representation (`DDVal` cells plus the per-type dispatch table generated
by the `decl_ddval_convert` macro) and the dynamic-closure mechanism
(`ClosureImpl` / `Box<dyn Closure<Args, Output>>`).

Modelling conventions:
* A Rust `DDVal` is one machine word that holds, per concrete type `T`, either
  the bytes of a small value (`size_of::<T>() <= size_of::<usize>()`) or a raw
  `Arc<T>` pointer.  The size test is a compile-time constant per type; we pass
  it as a boolean `small` (the macro's `size_of::<Self>() <= size_of::<usize>()`),
  and the `Cell` inductive records which branch produced the word.  Rust's
  `transmute` between `T` and its byte array is a bijection, so the inline
  branch stores the value itself.
* The `Arc` heap is explicit state: a list of slots, each holding an optional
  (strong reference count, value) pair; an address is an index; allocation
  appends a fresh slot; dropping the last reference clears the slot.
* Operations that are `unsafe` in Rust (dereferencing the erased word at the
  wrong type, or through a dangling pointer) return `none`: the `none` branch
  is exactly the undefined-behaviour territory the source documents as an
  unchecked caller obligation.
* Fallible Rust operations (`Result<_, String>`) become `Except String _`.
* A `Hasher` is modelled as its state, a `List Nat`; each type's `Hash`
  implementation is an arbitrary function from a value and a state to a state.
-/

namespace DdlogRt

/-- The `Arc` heap for values of type `T`: slot `a` holds `some (rc, v)` when a
heap block with strong count `rc` and payload `v` lives at address `a`, and
`none` when the slot was freed. -/
abbrev Heap (T : Type) : Type := List (Option (Nat × T))

/-- Read the heap block at address `a` (dereferencing the `Arc` raw pointer);
`none` models a dangling pointer. -/
def heapGet {T : Type} (h : Heap T) (a : Nat) : Option (Nat × T) :=
  (h.get? a).join

/-- Replace the block at address `a`. -/
def heapSet {T : Type} (h : Heap T) (a : Nat) (e : Option (Nat × T)) : Heap T :=
  h.set a e

/-- `Arc::new(v)` followed by `Arc::into_raw`: allocate a fresh block with
strong count 1 and return its address. -/
def heapAlloc {T : Type} (h : Heap T) (v : T) : Nat × Heap T :=
  (h.length, h ++ [some (1, v)])

/-- The erased cell: the one-word `DDVal`.  For a type on the inline branch the
word is the value's own bytes (`inline v`); for a type on the shared-heap
branch it is the raw `Arc` pointer (`heap addr`). -/
inductive Cell (T : Type) : Type where
  | inline (v : T)
  | heap (addr : Nat)
deriving DecidableEq

/-- `into_ddval` from `decl_ddval_convert`: erase a value.  `small` is the
compile-time test `size_of::<Self>() <= size_of::<usize>()`; the small branch
transmutes the value's bytes into the word, the large branch allocates an
`Arc` and stores the raw pointer. -/
def into_ddval {T : Type} (small : Bool) (v : T) (h : Heap T) : Cell T × Heap T :=
  if small then (Cell.inline v, h)
  else
    let p := heapAlloc h v
    (Cell.heap p.1, p.2)

/-- `from_ddval_ref` from `decl_ddval_convert`: reconstruct a reference from
the erased word.  The small branch reinterprets the word's bytes as `T`; the
large branch dereferences the `Arc` pointer.  `none` is the undefined
behaviour of reading a word produced by the other branch or a dangling
pointer. -/
def from_ddval_ref {T : Type} (small : Bool) (c : Cell T) (h : Heap T) : Option T :=
  if small then
    match c with
    | Cell.inline v => some v
    | Cell.heap _ => none
  else
    match c with
    | Cell.inline _ => none
    | Cell.heap a => (heapGet h a).map Prod.snd

/-- `from_ddval` from `decl_ddval_convert`: reconstruct an owned value,
consuming the cell.  The small branch transmutes the word's bytes back into
`T`; the large branch runs `Arc::from_raw` then `Arc::try_unwrap`: with strong
count 1 the payload is moved out and the block reclaimed, otherwise the
payload is cloned and the count drops by one. -/
def from_ddval {T : Type} (small : Bool) (c : Cell T) (h : Heap T) :
    Option (T × Heap T) :=
  if small then
    match c with
    | Cell.inline v => some (v, h)
    | Cell.heap _ => none
  else
    match c with
    | Cell.inline _ => none
    | Cell.heap a =>
      match heapGet h a with
      | none => none
      | some (rc, v) =>
        if rc = 1 then some (v, heapSet h a none)
        else some (v, heapSet h a (some (rc - 1, v)))

/-! ### The dispatch table (`DDValMethods`) generated by `decl_ddval_convert` -/

/-- The table's `clone`: the small branch clones the value read through
`from_ddval_ref` and re-erases it; the large branch reconstitutes the `Arc`,
clones the handle (bumping the strong count) and returns the same raw
pointer. -/
def vt_clone {T : Type} (small : Bool) (c : Cell T) (h : Heap T) :
    Option (Cell T × Heap T) :=
  if small then
    match from_ddval_ref small c h with
    | none => none
    | some v => some (into_ddval small v h)
  else
    match c with
    | Cell.inline _ => none
    | Cell.heap a =>
      match heapGet h a with
      | none => none
      | some (rc, v) => some (Cell.heap a, heapSet h a (some (rc + 1, v)))

/-- The table's `eq`: dereference both cells and delegate to `T`'s native
equality. -/
def vt_eq {T : Type} [DecidableEq T] (small : Bool) (c1 c2 : Cell T)
    (h : Heap T) : Option Bool :=
  match from_ddval_ref small c1 h, from_ddval_ref small c2 h with
  | some v1, some v2 => some (decide (v1 = v2))
  | _, _ => none

/-- The table's `cmp`: dereference both cells and delegate to `T`'s native
total order. -/
def vt_cmp {T : Type} [LinearOrder T] (small : Bool) (c1 c2 : Cell T)
    (h : Heap T) : Option Ordering :=
  match from_ddval_ref small c1 h, from_ddval_ref small c2 h with
  | some v1, some v2 => some (compare v1 v2)
  | _, _ => none

/-- `T`'s native `partial_cmp`: the `Val` bound requires `Ord`, whose contract
makes `partial_cmp` return `Some(cmp)`. -/
def nativePartialCmp {T : Type} [LinearOrder T] (v1 v2 : T) : Option Ordering :=
  some (compare v1 v2)

/-- The table's `partial_cmp`: dereference both cells and delegate to `T`'s
native `partial_cmp`. -/
def vt_partial_cmp {T : Type} [LinearOrder T] (small : Bool) (c1 c2 : Cell T)
    (h : Heap T) : Option (Option Ordering) :=
  match from_ddval_ref small c1 h, from_ddval_ref small c2 h with
  | some v1, some v2 => some (nativePartialCmp v1 v2)
  | _, _ => none

/-- The table's `hash`: dereference the cell and feed the value to `T`'s
native `Hash::hash`, modelled as a state transformer `hashT` on the hasher
state. -/
def vt_hash {T : Type} (hashT : T → List Nat → List Nat) (small : Bool)
    (c : Cell T) (h : Heap T) (st : List Nat) : Option (List Nat) :=
  (from_ddval_ref small c h).map (fun v => hashT v st)

/-- The table's `mutate`: clone the current value out through `from_ddval_ref`,
run the external `Mutator` (abstracted as `mutator`, `Record`-driven in Rust) on
the clone, and on success erase the result into a brand-new cell installed in
`this`; on failure (`?` operator) return early with `this` and the heap
untouched.  The result triple is (the `Result`, the new contents of `this`,
the new heap). -/
def vt_mutate {T : Type} (small : Bool) (mutator : T → Except String T)
    (c : Cell T) (h : Heap T) : Option (Except String Unit × Cell T × Heap T) :=
  match from_ddval_ref small c h with
  | none => none
  | some v =>
    match mutator v with
    | Except.error e => some (Except.error e, c, h)
    | Except.ok v' =>
      let p := into_ddval small v' h
      some (Except.ok (), p.1, p.2)

/-- Erase two values in sequence into the same heap: the setup shared by the
dispatch-table equivalence statements. -/
def eraseTwo {T : Type} (small : Bool) (v1 v2 : T) (h : Heap T) :
    Cell T × Cell T × Heap T :=
  let p1 := into_ddval small v1 h
  let p2 := into_ddval small v2 p1.2
  (p1.1, p2.1, p2.2)

/-! ### DDlog closures: `ClosureImpl` and `Box<dyn Closure<Args, Output>>` -/

/-- `ClosureImpl<Args, Output, Captured>`: a description string, the captured
environment, and the function pointer `f`.  Rust compares closures through
`internals()`, which returns `self.f` cast to `usize`; a function pointer's
numeric identity cannot be computed inside the embedding, so `fptr` carries it
explicitly alongside the function itself. -/
structure ClosureImpl (Args Output Captured : Type) : Type where
  description : String
  captured : Captured
  f : Args → Captured → Output
  fptr : Nat

namespace ClosureImpl

/-- `Closure::call`: apply the stored function pointer to the arguments and a
reference to the captured environment. -/
def call {A O C : Type} (cl : ClosureImpl A O C) (args : A) : O :=
  cl.f args cl.captured

/-- `ClosureImpl::eq_dyn`: compare function pointers first; only when they are
equal is it safe to read the other closure's captured value at type `C` and
compare structurally.  Both closures here have captured type `C`, the setting
in which the source's unsafe cast is defined behaviour. -/
def eq_dyn {A O C : Type} [DecidableEq C] (self other : ClosureImpl A O C) : Bool :=
  if other.fptr = self.fptr then decide (other.captured = self.captured)
  else false

/-- `ClosureImpl::cmp_dyn`: compare the function pointers as integers; on a
tie, compare the captured values with `C`'s total order. -/
def cmp_dyn {A O C : Type} [LinearOrder C] (self other : ClosureImpl A O C) :
    Ordering :=
  match compare self.fptr other.fptr with
  | Ordering.eq => compare self.captured other.captured
  | ord => ord

/-- `ClosureImpl::hash_dyn`: feed the captured value to the hasher, then the
function pointer (as `usize`).  `hashC` is `Captured`'s `Hash`
implementation; the pointer's contribution is its value appended to the
state. -/
def hash_dyn {A O C : Type} (hashC : C → List Nat → List Nat)
    (cl : ClosureImpl A O C) (st : List Nat) : List Nat :=
  (hashC cl.captured st) ++ [cl.fptr]

end ClosureImpl

/-- `Box<dyn Closure<Args, Output>>`: an owning box over some closure
implementation with an existentially hidden captured type. -/
structure ClosureBox (Args Output : Type) : Type 1 where
  Captured : Type
  impl : ClosureImpl Args Output Captured

/-- `impl Deserialize for Box<dyn Closure<Args, Output>>`: unconditionally
`Err(D::Error::custom(...))` for every deserializer and every input (`D` is
the deserializer's input, opaque here). -/
def closure_deserialize (Args Output : Type) {D : Type} (input : D) :
    Except String (ClosureBox Args Output) :=
  Except.error "Deserialization of closures is not implemented."

/-- `impl Mutator<Box<dyn Closure>> for Record`: `mutate` unconditionally
returns `Err`, leaving the closure untouched.  `R` stands for the external
`Record` type, opaque here. -/
def closure_mutate {Args Output R : Type} (record : R)
    (x : ClosureBox Args Output) : Except String Unit :=
  Except.error "'mutate' not implemented for closures."

/-- `impl FromRecord for Box<dyn Closure>`: `from_record` unconditionally
returns `Err`. -/
def closure_from_record (Args Output : Type) {R : Type} (record : R) :
    Except String (ClosureBox Args Output) :=
  Except.error "'from_record' not implemented for closures."

/-- Outcome of an `Abomonation` method: either a normal return or a `panic!`
abort with its message. -/
inductive AbomResult (α : Type) : Type where
  | ok (a : α)
  | panicked (msg : String)
deriving DecidableEq

/-- `Abomonation::entomb` for `Box<dyn Closure>`: `panic!` before touching the
write stream. -/
def closure_entomb {Args Output : Type} (x : ClosureBox Args Output)
    (writeStream : List Nat) : AbomResult Unit :=
  AbomResult.panicked "Closure::entomb: not implemented"

/-- `Abomonation::exhume` for `Box<dyn Closure>`: `panic!` before touching the
byte buffer. -/
def closure_exhume {Args Output : Type} (x : ClosureBox Args Output)
    (bytes : List Nat) : AbomResult (Option (List Nat)) :=
  AbomResult.panicked "Closure::exhume: not implemented"

/-- `Abomonation::extent` for `Box<dyn Closure>`: `panic!`. -/
def closure_extent {Args Output : Type} (x : ClosureBox Args Output) :
    AbomResult Nat :=
  AbomResult.panicked "Closure::extent: not implemented"

/-- The function body of the default closure: ignore the arguments and the
(unit) captured environment and return `Output::default()`. -/
def default_closure_fn (Args Output : Type) [Inhabited Output] :
    Args → Unit → Output :=
  fun _ _ => default

/-- The numeric identity of the default closure's function pointer.  Its value
is irrelevant to every property proved here; only its role as `internals().0`
matters. -/
def default_closure_fptr : Nat := 0

/-- `impl Default for Box<dyn Closure<Args, Output>>`: a closure with
description "default closure", unit captured state, and a function returning
`Output::default()` (Rust's `Default`, modelled by `Inhabited`). -/
def default_closure (Args Output : Type) [Inhabited Output] :
    ClosureImpl Args Output Unit :=
  { description := "default closure"
    captured := ()
    f := default_closure_fn Args Output
    fptr := default_closure_fptr }

/-! ### Heap lemmas -/

theorem heapGet_lt_length {T : Type} {h : Heap T} {a : Nat} {e : Nat × T}
    (hg : heapGet h a = some e) : a < h.length := by
  by_contra hle
  have hnone : h[a]? = none := List.getElem?_eq_none (Nat.le_of_not_lt hle)
  simp [heapGet, hnone] at hg

theorem heapGet_append {T : Type} {h : Heap T} {a : Nat} {e : Nat × T}
    (hg : heapGet h a = some e) (l : Heap T) : heapGet (h ++ l) a = some e := by
  have hlt := heapGet_lt_length hg
  simpa [heapGet, List.getElem?_append_left hlt] using hg

theorem heapGet_concat {T : Type} (h : Heap T) (e : Option (Nat × T)) :
    heapGet (h ++ [e]) h.length = e := by
  simp [heapGet, List.getElem?_concat_length]

theorem heapGet_set_self {T : Type} {h : Heap T} {a : Nat} (hlt : a < h.length)
    (e : Option (Nat × T)) : heapGet (heapSet h a e) a = e := by
  simp [heapGet, heapSet, List.getElem?_set_eq_of_lt _ hlt]

theorem heapGet_set_ne {T : Type} (h : Heap T) {a b : Nat} (hne : a ≠ b)
    (e : Option (Nat × T)) : heapGet (heapSet h a e) b = heapGet h b := by
  simp [heapGet, heapSet, List.getElem?_set_ne hne]

/-- Erasing then dereferencing reads back the erased value, on either branch. -/
theorem from_ddval_ref_into {T : Type} (small : Bool) (v : T) (h : Heap T) :
    from_ddval_ref small (into_ddval small v h).1 (into_ddval small v h).2 = some v := by
  cases small with
  | true => simp [into_ddval, from_ddval_ref]
  | false => simp [into_ddval, from_ddval_ref, heapAlloc, heapGet_concat]

/-- A successful dereference is unaffected by later allocations. -/
theorem from_ddval_ref_append {T : Type} {small : Bool} {c : Cell T}
    {h : Heap T} {v : T} (hr : from_ddval_ref small c h = some v) (l : Heap T) :
    from_ddval_ref small c (h ++ l) = some v := by
  cases small with
  | true =>
    cases c with
    | inline w => simpa [from_ddval_ref] using hr
    | heap a => simp [from_ddval_ref] at hr
  | false =>
    cases c with
    | inline w => simp [from_ddval_ref] at hr
    | heap a =>
      simp only [from_ddval_ref, Bool.false_eq_true, if_false] at hr ⊢
      obtain ⟨⟨rc, w⟩, hg, hw⟩ := Option.map_eq_some'.mp hr
      rw [heapGet_append hg]
      simpa using hw

/-! ### Claim theorems -/

/-- C1: for every type registered via `decl_ddval_convert` and every value `v`,
`from_ddval (into_ddval v)` returns exactly `v`, on both the inline-small
branch (`small = true`) and the shared-heap branch (`small = false`). -/
theorem from_ddval_into_ddval_roundtrip {T : Type} (small : Bool) (v : T)
    (h : Heap T) :
    ∃ h' : Heap T,
      from_ddval small (into_ddval small v h).1 (into_ddval small v h).2 =
        some (v, h') := by
  cases small with
  | true => exact ⟨h, by simp [into_ddval, from_ddval]⟩
  | false =>
    refine ⟨heapSet (h ++ [some (1, v)]) h.length none, ?_⟩
    simp [into_ddval, from_ddval, heapAlloc, heapGet_concat]

/-- C2: the dispatch-table operations `eq`, `cmp`, `partial_cmp` and `hash`
applied to the erased forms of `v1` and `v2` return exactly what `T`'s native
equality, total order, partial order and hash return on `v1` and `v2`
directly, on both storage branches. -/
theorem dispatch_native_equiv {T : Type} [LinearOrder T] [DecidableEq T]
    (hashT : T → List Nat → List Nat) (small : Bool) (v1 v2 : T) (h : Heap T)
    (st : List Nat) {c1 c2 : Cell T} {h2 : Heap T}
    (e : eraseTwo small v1 v2 h = (c1, c2, h2)) :
    vt_eq small c1 c2 h2 = some (decide (v1 = v2)) ∧
    vt_cmp small c1 c2 h2 = some (compare v1 v2) ∧
    vt_partial_cmp small c1 c2 h2 = some (nativePartialCmp v1 v2) ∧
    vt_hash hashT small c1 h2 st = some (hashT v1 st) ∧
    vt_hash hashT small c2 h2 st = some (hashT v2 st) := by
  simp only [eraseTwo, Prod.mk.injEq] at e
  obtain ⟨rfl, rfl, rfl⟩ := e
  have h2ref : from_ddval_ref small (into_ddval small v2 (into_ddval small v1 h).2).1
      (into_ddval small v2 (into_ddval small v1 h).2).2 = some v2 :=
    from_ddval_ref_into small v2 (into_ddval small v1 h).2
  have h1ref : from_ddval_ref small (into_ddval small v1 h).1
      (into_ddval small v2 (into_ddval small v1 h).2).2 = some v1 := by
    cases small with
    | true => simpa [into_ddval] using from_ddval_ref_into true v1 h
    | false =>
      have hap := from_ddval_ref_append (from_ddval_ref_into false v1 h)
        [some (1, v2)]
      simpa [into_ddval, heapAlloc] using hap
  simp [vt_eq, vt_cmp, vt_partial_cmp, vt_hash, h1ref, h2ref]

/-- Witness for C2: erasing 3 and 5 as `Nat` on the shared-heap branch, the
dispatch `eq` reports them unequal and the dispatch `cmp` reports "less",
matching the native operations. -/
theorem dispatch_native_equiv_witness :
    vt_eq (T := Nat) false (Cell.heap 0) (Cell.heap 1)
        [some (1, 3), some (1, 5)] = some false ∧
    vt_cmp (T := Nat) false (Cell.heap 0) (Cell.heap 1)
        [some (1, 3), some (1, 5)] = some Ordering.lt := by
  have hthm := dispatch_native_equiv (T := Nat) (fun v st => st ++ [v]) false
    3 5 [] [] rfl
  refine ⟨hthm.1.trans (by simp), ?_⟩
  exact hthm.2.1.trans (congrArg some (compare_lt_iff_lt.mpr (by norm_num)))

/-- `eq_dyn` holds exactly when both the function-pointer identities and the
captured values coincide. -/
theorem eq_dyn_iff {A O C : Type} [LinearOrder C] [DecidableEq C]
    (a b : ClosureImpl A O C) :
    ClosureImpl.eq_dyn a b = true ↔ (a.fptr = b.fptr ∧ a.captured = b.captured) := by
  unfold ClosureImpl.eq_dyn
  by_cases hf : b.fptr = a.fptr
  · rw [if_pos hf]
    simp [decide_eq_true_eq, hf.symm, eq_comm]
  · rw [if_neg hf]
    simp [Ne.symm hf]

/-- `cmp_dyn` returns `Ordering.eq` exactly when both the function-pointer
identities and the captured values coincide. -/
theorem cmp_dyn_eq_iff {A O C : Type} [LinearOrder C]
    (a b : ClosureImpl A O C) :
    ClosureImpl.cmp_dyn a b = Ordering.eq ↔
      (a.fptr = b.fptr ∧ a.captured = b.captured) := by
  unfold ClosureImpl.cmp_dyn
  rcases hcmp : compare a.fptr b.fptr with _ | _ | _
  · have hne : a.fptr ≠ b.fptr := fun hc => by
      rw [compare_eq_iff_eq.mpr hc] at hcmp; cases hcmp
    simp [hcmp, hne]
  · simp [hcmp, compare_eq_iff_eq, compare_eq_iff_eq.mp hcmp]
  · have hne : a.fptr ≠ b.fptr := fun hc => by
      rw [compare_eq_iff_eq.mpr hc] at hcmp; cases hcmp
    simp [hcmp, hne]

/-- C3: closures with equal function-pointer identities and equal captured
values are `eq_dyn`-equal, `cmp_dyn`-equal and hash equal; closures with
differing function pointers are `eq_dyn`-unequal regardless of captured
values and `cmp_dyn` is the pointers' order; with equal pointers and
differing captured values, `cmp_dyn` is the captured values' order
(lexicographic order on (pointer, captured value)). -/
theorem closure_eq_cmp_hash_law {A O C : Type} [LinearOrder C] [DecidableEq C]
    (hashC : C → List Nat → List Nat) (st : List Nat)
    (a b : ClosureImpl A O C) :
    (a.fptr = b.fptr → a.captured = b.captured →
      ClosureImpl.eq_dyn a b = true ∧ ClosureImpl.cmp_dyn a b = Ordering.eq ∧
      ClosureImpl.hash_dyn hashC a st = ClosureImpl.hash_dyn hashC b st) ∧
    (a.fptr ≠ b.fptr →
      ClosureImpl.eq_dyn a b = false ∧
      ClosureImpl.cmp_dyn a b = compare a.fptr b.fptr) ∧
    (a.fptr = b.fptr → a.captured ≠ b.captured →
      ClosureImpl.cmp_dyn a b = compare a.captured b.captured) := by
  refine ⟨fun hf hc => ⟨?_, ?_, ?_⟩, fun hf => ⟨?_, ?_⟩, fun hf _ => ?_⟩
  · simp [ClosureImpl.eq_dyn, hf.symm, hc.symm]
  · simp [ClosureImpl.cmp_dyn, compare_eq_iff_eq.mpr hf,
      compare_eq_iff_eq.mpr hc]
  · simp [ClosureImpl.hash_dyn, hf, hc]
  · simp [ClosureImpl.eq_dyn, Ne.symm hf]
  · rcases hcmp : compare a.fptr b.fptr with _ | _ | _
    · simp [ClosureImpl.cmp_dyn, hcmp]
    · exact absurd (compare_eq_iff_eq.mp hcmp) hf
    · simp [ClosureImpl.cmp_dyn, hcmp]
  · simp [ClosureImpl.cmp_dyn, compare_eq_iff_eq.mpr hf]

/-- Witness for C3: concrete closures over `Nat` with equal pointers and equal
captures compare equal; with differing pointers they are unequal and ordered
by pointer; with equal pointers they are ordered by capture. -/
theorem closure_eq_cmp_hash_law_witness :
    (ClosureImpl.eq_dyn (⟨"d1", 7, fun x c => x + c, 1⟩ : ClosureImpl Nat Nat Nat)
      ⟨"d2", 7, fun x c => x * c, 1⟩ = true) ∧
    (ClosureImpl.cmp_dyn (⟨"d1", 7, fun x c => x + c, 1⟩ : ClosureImpl Nat Nat Nat)
      ⟨"d2", 7, fun x c => x * c, 1⟩ = Ordering.eq) ∧
    (ClosureImpl.eq_dyn (⟨"d1", 7, fun x c => x + c, 1⟩ : ClosureImpl Nat Nat Nat)
      ⟨"d3", 9, fun x c => x + c, 2⟩ = false) ∧
    (ClosureImpl.cmp_dyn (⟨"d1", 7, fun x c => x + c, 1⟩ : ClosureImpl Nat Nat Nat)
      ⟨"d3", 9, fun x c => x + c, 2⟩ = Ordering.lt) ∧
    (ClosureImpl.cmp_dyn (⟨"d1", 7, fun x c => x + c, 1⟩ : ClosureImpl Nat Nat Nat)
      ⟨"d4", 9, fun x c => x + c, 1⟩ = Ordering.lt) := by
  have h12 := closure_eq_cmp_hash_law (fun c st => st ++ [c]) []
    (⟨"d1", 7, fun x c => x + c, 1⟩ : ClosureImpl Nat Nat Nat)
    ⟨"d2", 7, fun x c => x * c, 1⟩
  have h13 := closure_eq_cmp_hash_law (fun c st => st ++ [c]) []
    (⟨"d1", 7, fun x c => x + c, 1⟩ : ClosureImpl Nat Nat Nat)
    ⟨"d3", 9, fun x c => x + c, 2⟩
  have h14 := closure_eq_cmp_hash_law (fun c st => st ++ [c]) []
    (⟨"d1", 7, fun x c => x + c, 1⟩ : ClosureImpl Nat Nat Nat)
    ⟨"d4", 9, fun x c => x + c, 1⟩
  refine ⟨(h12.1 rfl rfl).1, (h12.1 rfl rfl).2.1, (h13.2.1 (by decide)).1,
    ?_, ?_⟩
  · exact ((h13.2.1 (by decide)).2).trans (compare_lt_iff_lt.mpr (by norm_num))
  · exact (h14.2.2 rfl (by decide)).trans (compare_lt_iff_lt.mpr (by norm_num))

/-- C10: `eq_dyn a b` is true exactly when `cmp_dyn a b` is `Ordering.eq`, so
the `PartialEq` and `Ord` instances on `Box<dyn Closure>` (which delegate to
`eq_dyn` and `cmp_dyn`) agree. -/
theorem eq_dyn_iff_cmp_dyn_eq {A O C : Type} [LinearOrder C] [DecidableEq C]
    (a b : ClosureImpl A O C) :
    ClosureImpl.eq_dyn a b = true ↔ ClosureImpl.cmp_dyn a b = Ordering.eq :=
  (eq_dyn_iff a b).trans (cmp_dyn_eq_iff a b).symm

/-- C4: after cloning the erased cell of `v`, running the dispatch-table
`mutate` on the original handle leaves the value observed through the other
(pre-mutation) clone equal to `v`; on the shared-heap branch the old heap
block is untouched and, on success, the mutated handle holds a freshly erased
cell at a different address rather than an in-place edit. -/
theorem mutate_isolation {T : Type} (small : Bool)
    (mutator : T → Except String T) (v : T) (h : Heap T)
    {c0 c1 c0' : Cell T} {h0 h1 h2 : Heap T} {r : Except String Unit}
    (e0 : into_ddval small v h = (c0, h0))
    (e1 : vt_clone small c0 h0 = some (c1, h1))
    (e2 : vt_mutate small mutator c0 h1 = some (r, c0', h2)) :
    from_ddval_ref small c1 h2 = some v ∧
    (∀ a : Nat, c0 = Cell.heap a →
      heapGet h2 a = heapGet h1 a ∧
      ∀ b : Nat, r = Except.ok () → c0' = Cell.heap b → b ≠ a) := by
  cases small with
  | true =>
    simp only [into_ddval, if_pos, Prod.mk.injEq] at e0
    obtain ⟨rfl, rfl⟩ := e0
    simp only [vt_clone, from_ddval_ref, if_pos, Option.some.injEq,
      Prod.mk.injEq, into_ddval] at e1
    obtain ⟨rfl, rfl⟩ := e1
    simp only [vt_mutate, from_ddval_ref, if_pos] at e2
    rcases hm : mutator v with m | v' <;> rw [hm] at e2 <;>
      simp only [into_ddval, if_pos, Option.some.injEq, Prod.mk.injEq] at e2 <;>
      obtain ⟨rfl, rfl, rfl⟩ := e2 <;>
      exact ⟨by simp [from_ddval_ref], by rintro a ⟨⟩⟩
  | false =>
    simp only [into_ddval, heapAlloc, Bool.false_eq_true, if_false,
      Prod.mk.injEq] at e0
    obtain ⟨rfl, rfl⟩ := e0
    have hg0 : heapGet (h ++ [some (1, v)]) h.length = some (1, v) :=
      heapGet_concat h (some (1, v))
    simp only [vt_clone, Bool.false_eq_true, if_false, hg0, Option.some.injEq,
      Prod.mk.injEq] at e1
    obtain ⟨rfl, rfl⟩ := e1
    have hlen : h.length < (h ++ [some (1, v)]).length := by simp
    have hg1 : heapGet (heapSet (h ++ [some (1, v)]) h.length (some (1 + 1, v)))
        h.length = some (1 + 1, v) := heapGet_set_self hlen _
    simp only [vt_mutate, from_ddval_ref, Bool.false_eq_true, if_false, hg1,
      Option.map_some', Option.some.injEq] at e2
    rcases hm : mutator v with m | v' <;> rw [hm] at e2 <;>
      simp only [into_ddval, heapAlloc, Bool.false_eq_true, if_false,
        Option.some.injEq, Prod.mk.injEq] at e2 <;>
      obtain ⟨rfl, rfl, rfl⟩ := e2
    · refine ⟨by simp [from_ddval_ref, hg1], ?_⟩
      rintro a ha
      obtain rfl : h.length = a := by cases ha; rfl
      exact ⟨rfl, by rintro b ⟨⟩⟩
    · refine ⟨?_, ?_⟩
      · simp only [from_ddval_ref, Bool.false_eq_true, if_false]
        rw [heapGet_append hg1]
        rfl
      · rintro a ha
        obtain rfl : h.length = a := by cases ha; rfl
        refine ⟨(heapGet_append hg1 _).trans hg1.symm, ?_⟩
        rintro b - hb
        have hb' : (heapSet (h ++ [some (1, v)]) h.length
            (some (1 + 1, v))).length = b := by cases hb; rfl
        simp only [heapSet, List.length_set, List.length_append,
          List.length_cons, List.length_nil] at hb'
        omega

/-- Witness for C4: erasing `5 : Nat` on the shared-heap branch, cloning the
cell, and mutating the original handle with a successful `n + 1` mutator
leaves the clone still reading 5. -/
theorem mutate_isolation_witness :
    from_ddval_ref false (Cell.heap 0) [some (2, 5), some (1, 6)] =
      some (5 : Nat) :=
  (mutate_isolation false (fun n => Except.ok (n + 1)) 5 [] rfl rfl rfl).1

/-- C9: when the dispatch-table `mutate` reports an error, the erased cell and
the heap are left exactly as they were, so the value observed through the
cell afterwards equals the value observed before. -/
theorem mutate_error_frame {T : Type} (small : Bool)
    (mutator : T → Except String T) {c c' : Cell T} {h h' : Heap T}
    {msg : String}
    (e : vt_mutate small mutator c h = some (Except.error msg, c', h')) :
    c' = c ∧ h' = h ∧
      from_ddval_ref small c' h' = from_ddval_ref small c h := by
  unfold vt_mutate at e
  split at e
  · exact Option.noConfusion e
  · split at e
    · simp only [Option.some.injEq, Prod.mk.injEq, Except.error.injEq] at e
      obtain ⟨-, rfl, rfl⟩ := e
      exact ⟨rfl, rfl, rfl⟩
    · simp at e

/-- Witness for C9: a failing mutator on an erased `5 : Nat` in a shared heap
block leaves the cell and heap unchanged. -/
theorem mutate_error_frame_witness :
    (Cell.heap 0 = (Cell.heap 0 : Cell Nat)) ∧
    ([some (2, 5)] = ([some (2, 5)] : Heap Nat)) ∧
    from_ddval_ref false (Cell.heap 0) [some (2, 5)] =
      from_ddval_ref (T := Nat) false (Cell.heap 0) [some (2, 5)] :=
  mutate_error_frame false (fun _ => Except.error "nope") rfl

/-- C5: deserializing a `Box<dyn Closure<Args, Output>>` reports an error for
every deserializer input and never produces a closure value. -/
theorem closure_deserialize_always_errs (Args Output D : Type) (input : D) :
    (∃ msg, closure_deserialize Args Output input = Except.error msg) ∧
    ∀ b : ClosureBox Args Output,
      closure_deserialize Args Output input ≠ Except.ok b := by
  refine ⟨⟨_, rfl⟩, fun b hc => ?_⟩
  simp [closure_deserialize] at hc

/-- C6: the generic-record operations on closures always fail: `Record`'s
`mutate` of a closure field returns `Err` for every record and closure, and
`from_record` returns `Err` for every record. -/
theorem closure_record_ops_always_err (Args Output R : Type) (record : R)
    (x : ClosureBox Args Output) :
    (∃ m, closure_mutate record x = Except.error m) ∧
    (∃ m, closure_from_record Args Output record = Except.error m) ∧
    (∀ u : Unit, closure_mutate record x ≠ Except.ok u) ∧
    (∀ b : ClosureBox Args Output,
      closure_from_record Args Output record ≠ Except.ok b) := by
  refine ⟨⟨_, rfl⟩, ⟨_, rfl⟩, fun u hc => ?_, fun b hc => ?_⟩
  · simp [closure_mutate] at hc
  · simp [closure_from_record] at hc

/-- C7: the three binary snapshot (`Abomonation`) operations on
`Box<dyn Closure>` — `entomb`, `exhume` and `extent` — abort with a panic on
every input and can never return normally. -/
theorem closure_abomonation_aborts (Args Output : Type)
    (x : ClosureBox Args Output) (writeStream bytes : List Nat) :
    (∃ m, closure_entomb x writeStream = AbomResult.panicked m) ∧
    (∀ u, closure_entomb x writeStream ≠ AbomResult.ok u) ∧
    (∃ m, closure_exhume x bytes = AbomResult.panicked m) ∧
    (∀ o, closure_exhume x bytes ≠ AbomResult.ok o) ∧
    (∃ m, closure_extent x = AbomResult.panicked m) ∧
    (∀ n, closure_extent x ≠ AbomResult.ok n) := by
  refine ⟨⟨_, rfl⟩, fun u hc => ?_, ⟨_, rfl⟩, fun o hc => ?_, ⟨_, rfl⟩,
    fun n hc => ?_⟩
  · simp [closure_entomb] at hc
  · simp [closure_exhume] at hc
  · simp [closure_extent] at hc

/-- C8: the default dynamic closure handle captures nothing (unit captured
state) and calling it on any argument returns the output type's default
value. -/
theorem default_closure_spec (Args Output : Type) [Inhabited Output]
    (args : Args) :
    (default_closure Args Output).captured = () ∧
    ClosureImpl.call (default_closure Args Output) args = (default : Output) :=
  ⟨rfl, rfl⟩

end DdlogRt
